import Mathlib

/-!
Verification of the bgpd/zebra core: the per-peer BGP finite-state machine
(src/fsm/peer.rs) and the schema-driven configuration engine
(zebra/src/config).  The Rust code is shallowly embedded: mutation becomes
explicit state passing, panics (`unwrap`/`expect`) become `Option`, and the
asynchronous reader task is modelled as a function over the list of socket
read results.  Code of the repository that is not part of the excerpt
(packet codecs, config tree helpers, libyang entries) is modelled from the
specification; each such definition says so in its doc comment.
-/

namespace Bgpd

/-! ## Peer FSM data model (src/fsm/peer.rs) -/

/-- IPv4 addresses are used only through `octets`; modelled as the octet
list itself. -/
abbrev Ipv4Addr := List Nat

/-- Octets of an address (`Ipv4Addr::octets`). -/
def Ipv4Addr.octets (a : Ipv4Addr) : List Nat := a

/-- Modelled from the spec: `OpenPacket` (packet codec is outside the
excerpt).  Open body: version (1), ASN (2, big-endian), hold time (2),
BGP identifier (4 octets). -/
structure OpenPacket where
  version : Nat
  asn : Nat
  hold_time : Nat
  bgp_id : List Nat
deriving DecidableEq

/-- Modelled from the spec: `NotificationPacket` body is error code (1),
subcode (1), data (variable). -/
structure NotificationPacket where
  code : Nat
  subcode : Nat
  data : List Nat
deriving DecidableEq

/-- Modelled from the spec: `UpdatePacket` body is withdrawn routes,
path attributes and NLRI. -/
structure UpdatePacket where
  withdrawn : List Nat
  attrs : List Nat
  nlri : List Nat
deriving DecidableEq

/-- `State` of a peer session (src/fsm/peer.rs). -/
inductive State where
  | Idle
  | Connect
  | Active
  | OpenSent
  | OpenConfirm
  | Established
deriving DecidableEq

/-- `Event` posted into the daemon mailbox (src/fsm/peer.rs).  The TCP
stream carried by `Connected` is opaque to the FSM and modelled as `Unit`. -/
inductive Event where
  | Start
  | Stop
  | ConnRetryTimerExpires
  | HoldTimerExpires
  | KeepaliveTimerExpires
  | IdleHoldTimerExpires
  | Connected (stream : Unit)
  | ConnFail
  | BGPOpen (pkt : OpenPacket)
  | NotifMsg (pkt : NotificationPacket)
  | KeepAliveMsg
  | UpdateMsg (pkt : UpdatePacket)
deriving DecidableEq

/-- `TimerType` of the timer service: one-shot or periodic. -/
inductive TimerType where
  | Once
  | Infinite
deriving DecidableEq

/-- A timer: duration in seconds, kind, and the event its callback posts
(every callback in peer.rs only posts one event). -/
structure Timer where
  sec : Nat
  kind : TimerType
  post : Event
deriving DecidableEq

/-- `PeerTask`: presence of the connect, reader and writer tasks. -/
structure PeerTask where
  connect : Option Unit
  reader : Option Unit
  writer : Option Unit
deriving DecidableEq

/-- `PeerTimer`: the six per-peer timers. -/
structure PeerTimer where
  idle_hold_timer : Option Timer
  connect_retry : Option Timer
  hold_timer : Option Timer
  keepalive : Option Timer
  min_as_origin : Option Timer
  min_route_adv : Option Timer
deriving DecidableEq

/-- `Peer` (src/fsm/peer.rs).  `packet_tx` records whether the send channel
into the Writer exists. -/
structure Peer where
  ident : Ipv4Addr
  local_as : Nat
  router_id : Ipv4Addr
  peer_as : Nat
  address : Ipv4Addr
  state : State
  task : PeerTask
  timer : PeerTimer
  packet_tx : Bool
deriving DecidableEq

/-- `Peer::is_passive` always returns false in the source. -/
def Peer.is_passive (_p : Peer) : Bool := false

/-- `peer_start_idle_hold_timer`: 5 s one-shot, posts `Start`. -/
def peer_start_idle_hold_timer (_p : Peer) : Timer := ⟨5, .Once, .Start⟩

/-- `peer_start_keepalive`: 30 s periodic, posts `KeepaliveTimerExpires`. -/
def peer_start_keepalive (_p : Peer) : Timer := ⟨30, .Infinite, .KeepaliveTimerExpires⟩

/-- `peer_start_holdtimer`: 180 s periodic, posts `HoldTimerExpires`. -/
def peer_start_holdtimer (_p : Peer) : Timer := ⟨180, .Infinite, .HoldTimerExpires⟩

/-- `peer_send_open` unwraps `packet_tx`: panics (`none`) when the send
channel is absent. -/
def peer_send_open (p : Peer) : Option Unit :=
  if p.packet_tx then some () else none

/-- `peer_send_keepalive` unwraps `packet_tx`: panics (`none`) when the send
channel is absent. -/
def peer_send_keepalive (p : Peer) : Option Unit :=
  if p.packet_tx then some () else none

/-- `peer_refresh_holdtimer` resets the hold timer's remaining time to its
original duration; the remaining time is not observable in this model. -/
def peer_refresh_holdtimer (p : Peer) : Peer := p

/-- `fsm_init`: a non-passive peer arms the idle-hold timer; returns Idle. -/
def fsm_init (p : Peer) : Peer × State :=
  let p := if p.is_passive then p else
    { p with timer := { p.timer with idle_hold_timer := some (peer_start_idle_hold_timer p) } }
  (p, State.Idle)

/-- `fsm_start`: spawn the connect task; go to Connect. -/
def fsm_start (p : Peer) : Peer × State :=
  ({ p with task := { p.task with connect := some () } }, State.Connect)

/-- `fsm_stop`: drop writer and reader tasks, clear the idle-hold,
connect-retry, keepalive and hold timers, re-run `fsm_init`; returns Idle.
(The connect task, the min timers and `packet_tx` are not touched.) -/
def fsm_stop (p : Peer) : Peer × State :=
  let p := { p with
    task := { p.task with writer := none, reader := none },
    timer := { p.timer with
                idle_hold_timer := none
                connect_retry := none
                keepalive := none
                hold_timer := none } }
  let p := (fsm_init p).1
  (p, State.Idle)

/-- `fsm_bgp_open`: accept the Open only in OpenSent with matching ASN and
bgp_id; on acceptance arm keepalive and hold timers and go to Established,
otherwise go to Idle. -/
def fsm_bgp_open (p : Peer) (pkt : OpenPacket) : Peer × State :=
  if p.state ≠ State.OpenSent then (p, State.Idle)
  else if pkt.asn ≠ p.peer_as then (p, State.Idle)
  else if pkt.bgp_id ≠ p.address.octets then (p, State.Idle)
  else
    ({ p with timer := { p.timer with
        keepalive := some (peer_start_keepalive p),
        hold_timer := some (peer_start_holdtimer p) } },
     State.Established)

/-- `fsm_bgp_notification`: always returns Idle. -/
def fsm_bgp_notification (p : Peer) (_pkt : NotificationPacket) : Peer × State :=
  (p, State.Idle)

/-- `fsm_bgp_keepalive`: refresh the hold timer; returns Established
regardless of the current state. -/
def fsm_bgp_keepalive (p : Peer) : Peer × State :=
  (peer_refresh_holdtimer p, State.Established)

/-- `fsm_bgp_update`: refresh the hold timer; returns Established
regardless of the current state. -/
def fsm_bgp_update (p : Peer) (_pkt : UpdatePacket) : Peer × State :=
  (peer_refresh_holdtimer p, State.Established)

/-- `fsm_connected`: drop the connect task, create the send channel, spawn
reader and writer, send Open and Keepalive; returns OpenSent. -/
def fsm_connected (p : Peer) (_stream : Unit) : Option (Peer × State) :=
  let p := { p with
    task := { p.task with connect := none, reader := some (), writer := some () },
    packet_tx := true }
  match peer_send_open p, peer_send_keepalive p with
  | some _, some _ => some (p, State.OpenSent)
  | _, _ => none

/-- `fsm_conn_retry_expires`: respawn the connect task; returns Connect. -/
def fsm_conn_retry_expires (p : Peer) : Peer × State :=
  ({ p with task := { p.task with connect := some () } }, State.Connect)

/-- `fsm_holdtimer_expires`: returns Idle (no notification is sent). -/
def fsm_holdtimer_expires (p : Peer) : Peer × State :=
  (p, State.Idle)

/-- `fsm_idle_hold_timer_expires`: drop the idle-hold timer, spawn the
connect task; returns Connect. -/
def fsm_idle_hold_timer_expires (p : Peer) : Peer × State :=
  ({ p with
      timer := { p.timer with idle_hold_timer := none },
      task := { p.task with connect := some () } },
   State.Connect)

/-- `fsm_keepalive_expires`: transmit a keepalive (panics when no send
channel exists); returns Established. -/
def fsm_keepalive_expires (p : Peer) : Option (Peer × State) :=
  (peer_send_keepalive p).map fun _ => (p, State.Established)

/-- `fsm_conn_fail`: drop writer and reader; returns Active. -/
def fsm_conn_fail (p : Peer) : Peer × State :=
  ({ p with task := { p.task with writer := none, reader := none } }, State.Active)

/-- `fsm`: dispatch the event, install the returned state, and when a
non-Idle state transitioned into Idle run `fsm_stop` once more.  `none`
models a panic inside a handler. -/
def fsm (p : Peer) (ev : Event) : Option Peer :=
  let prev := p.state
  let step : Option (Peer × State) :=
    match ev with
    | .Start => some (fsm_start p)
    | .Stop => some (fsm_stop p)
    | .ConnRetryTimerExpires => some (fsm_conn_retry_expires p)
    | .HoldTimerExpires => some (fsm_holdtimer_expires p)
    | .KeepaliveTimerExpires => fsm_keepalive_expires p
    | .IdleHoldTimerExpires => some (fsm_idle_hold_timer_expires p)
    | .Connected s => fsm_connected p s
    | .ConnFail => some (fsm_conn_fail p)
    | .BGPOpen pkt => some (fsm_bgp_open p pkt)
    | .NotifMsg pkt => some (fsm_bgp_notification p pkt)
    | .KeepAliveMsg => some (fsm_bgp_keepalive p)
    | .UpdateMsg pkt => some (fsm_bgp_update p pkt)
  match step with
  | none => none
  | some (p1, st) =>
    let p2 := { p1 with state := st }
    if prev ≠ State.Idle ∧ p2.state = State.Idle then some (fsm_stop p2).1
    else some p2

/-! ## BGP wire format and the Reader task (src/fsm/peer.rs) -/

/-- `BGP_PACKET_HEADER_LEN`: 16-byte marker + 2-byte length + 1-byte type. -/
def BGP_PACKET_HEADER_LEN : Nat := 19

/-- `BGP_PACKET_MAX_LEN`: maximum legal BGP message length. -/
def BGP_PACKET_MAX_LEN : Nat := 4096

/-- `BgpPacket`: the four packet variants. -/
inductive BgpPacket where
  | Open (p : OpenPacket)
  | Keepalive
  | Notification (p : NotificationPacket)
  | Update (p : UpdatePacket)
deriving DecidableEq

/-- `peek_bgp_length`: the big-endian 2-byte length field at offset 16.
Only called once the buffer holds at least a full header. -/
def peek_bgp_length (buf : List Nat) : Nat :=
  256 * buf.getD 16 0 + buf.getD 17 0

/-- Modelled from the spec: `parse_bgp_packet` (the packet codec is outside
the excerpt).  Every message begins with a 16-byte marker of all 1s, a
2-byte big-endian length and a 1-byte type (1=Open, 2=Update,
3=Notification, 4=Keepalive); anything else is a parse error.  Open body:
version (1), ASN (2, big-endian), hold time (2), BGP identifier (4).
Notification body: code (1), subcode (1), data.  Update body:
withdrawn-routes length (2) + withdrawn routes + path-attribute length (2)
+ path attributes + NLRI. -/
def parse_bgp_packet (input : List Nat) : Option BgpPacket :=
  if input.length < BGP_PACKET_HEADER_LEN then none
  else if (input.take 16).any (· ≠ 255) then none
  else
    let len := 256 * input.getD 16 0 + input.getD 17 0
    if len < BGP_PACKET_HEADER_LEN ∨ input.length < len ∨ BGP_PACKET_MAX_LEN < len
    then none
    else
      match input.getD 18 0 with
      | 1 =>
        if len < 29 then none
        else some (.Open
          { version := input.getD 19 0
            asn := 256 * input.getD 20 0 + input.getD 21 0
            hold_time := 256 * input.getD 22 0 + input.getD 23 0
            bgp_id := [input.getD 24 0, input.getD 25 0,
                       input.getD 26 0, input.getD 27 0] })
      | 2 =>
        let body := (input.take len).drop 19
        if body.length < 2 then none
        else
          let wlen := 256 * body.getD 0 0 + body.getD 1 0
          if body.length < 2 + wlen + 2 then none
          else
            let rest := body.drop (2 + wlen)
            let alen := 256 * rest.getD 0 0 + rest.getD 1 0
            if rest.length < 2 + alen then none
            else some (.Update
              { withdrawn := (body.drop 2).take wlen
                attrs := (rest.drop 2).take alen
                nlri := rest.drop (2 + alen) })
      | 3 =>
        if len < 21 then none
        else some (.Notification
          { code := input.getD 19 0
            subcode := input.getD 20 0
            data := (input.take len).drop 21 })
      | 4 => some .Keepalive
      | _ => none

/-- `peer_packet_parse`: parse the front of the buffer and post the
corresponding event.  The error branch of `parse_bgp_packet` is handled
with `.expect("error")`, i.e. a panic (`none`): no event is posted. -/
def peer_packet_parse (rx : List Nat) : Option Event :=
  match parse_bgp_packet rx with
  | none => none
  | some (.Open p) => some (.BGPOpen p)
  | some .Keepalive => some .KeepAliveMsg
  | some (.Notification p) => some (.NotifMsg p)
  | some (.Update p) => some (.UpdateMsg p)

/-- Outcome of one socket read inside the Reader loop. -/
inductive ReadResult where
  | ok (bs : List Nat)
  | err
deriving DecidableEq

/-- How the Reader task ends up after consuming a list of read results. -/
inductive ReaderEnd where
  | running
  | returned
  | panicked
deriving DecidableEq

/-- The inner framing loop of `peer_read`: while the buffer holds at least
19 bytes and at least `peek_bgp_length` bytes, parse the front packet,
post its event and slice exactly that many bytes off.  `none` in the
second component models the `expect` panic of `peer_packet_parse`.  Each
successful parse consumes at least 19 bytes, so `buf.length + 1` fuel is
always enough. -/
def drain_frames : Nat → List Nat → List Event × Option (List Nat)
  | 0, buf => ([], some buf)
  | fuel + 1, buf =>
    if BGP_PACKET_HEADER_LEN ≤ buf.length ∧ peek_bgp_length buf ≤ buf.length then
      match peer_packet_parse buf with
      | none => ([], none)
      | some ev =>
        let r := drain_frames fuel (buf.drop (peek_bgp_length buf))
        (ev :: r.1, r.2)
    else ([], some buf)

/-- `peer_read` as a function over the sequence of socket read outcomes:
a read of 0 bytes posts ConnFail and returns; a successful read appends to
the buffer and drains complete frames; an I/O error posts ConnFail and —
the `Err` arm has no `return` — continues the loop. -/
def peer_read_model : List Nat → List ReadResult → List Event × ReaderEnd
  | _, [] => ([], .running)
  | _, .ok [] :: _ => ([.ConnFail], .returned)
  | buf, .ok bs :: rest =>
    let buf := buf ++ bs
    match drain_frames (buf.length + 1) buf with
    | (evs, none) => (evs, .panicked)
    | (evs, some buf') =>
      let r := peer_read_model buf' rest
      (evs ++ r.1, r.2)
  | buf, .err :: rest =>
    let r := peer_read_model buf rest
    (.ConnFail :: r.1, r.2)

/-- A well-formed 19-byte Keepalive frame. -/
def keepaliveFrame : List Nat := List.replicate 16 255 ++ [0, 19, 4]

/-- A 19-byte frame whose type byte (9) is not one of the four kinds. -/
def badTypeFrame : List Nat := List.replicate 16 255 ++ [0, 19, 9]

/-! ## Concrete peers used as witnesses and counterexamples -/

/-- A peer in OpenSent as in the spec's open-handshake scenario:
local-as 65001, peer-as 65002, neighbor 10.0.0.2, router-id 1.1.1.1. -/
def peerOpenSent : Peer :=
  { ident := [10, 0, 0, 2]
    local_as := 65001
    router_id := [1, 1, 1, 1]
    peer_as := 65002
    address := [10, 0, 0, 2]
    state := State.OpenSent
    task := ⟨none, some (), some ()⟩
    timer := ⟨none, none, none, none, none, none⟩
    packet_tx := true }

/-- The matching Open packet of the handshake scenario. -/
def openPktGood : OpenPacket :=
  { version := 4, asn := 65002, hold_time := 180, bgp_id := [10, 0, 0, 2] }

/-- A peer in Connect whose connect task is live and that still holds a
send channel. -/
def peerConnect : Peer :=
  { ident := [10, 0, 0, 2]
    local_as := 65001
    router_id := [1, 1, 1, 1]
    peer_as := 65002
    address := [10, 0, 0, 2]
    state := State.Connect
    task := ⟨some (), none, none⟩
    timer := ⟨none, none, none, none, none, none⟩
    packet_tx := true }

/-- An idle peer with no tasks, no timers and no send channel. -/
def peerIdle : Peer :=
  { ident := [10, 0, 0, 2]
    local_as := 65001
    router_id := [1, 1, 1, 1]
    peer_as := 65002
    address := [10, 0, 0, 2]
    state := State.Idle
    task := ⟨none, none, none⟩
    timer := ⟨none, none, none, none, none, none⟩
    packet_tx := false }

end Bgpd

namespace Zebra

/-! ## Configuration engine: data model (zebra/src/config) -/

/-- `ExecCode` of the vtysh protocol. -/
inductive ExecCode where
  | Success
  | Nomatch
  | Ambiguous
  | Incomplete
  | Show
  | RedirectShow
deriving DecidableEq

/-- `YangMatch`: the traversal mode inside a schema walk. -/
inductive YangMatch where
  | Dir
  | DirMatched
  | Key
  | KeyMatched
  | Leaf
  | LeafMatched
  | LeafList
  | LeafListMatched
deriving DecidableEq

/-- `MatchType` with its derived ordering None < Incomplete < Partial <
Exact (Rust `PartialOrd` on declaration order). -/
inductive MatchType where
  | None
  | Incomplete
  | Partial
  | Exact
deriving DecidableEq

/-- Rank of a `MatchType` in declaration order; `a < b` in the derived
Rust ordering iff `a.toNat < b.toNat`. -/
def MatchType.toNat : MatchType → Nat
  | .None => 0
  | .Incomplete => 1
  | .Partial => 2
  | .Exact => 3

/-- `YangType` of a libyang type node. -/
inductive YangType where
  | Boolean
  | Int8
  | Int16
  | Int32
  | Int64
  | Uint8
  | Uint16
  | Uint32
  | Uint64
  | Ipv4Addr
  | Ipv4Prefix
  | Ipv6Addr
  | Ipv6Prefix
  | Enumeration
  | String
deriving DecidableEq

/-- Modelled from the spec: a libyang `TypeNode` carries kind, optional
regex pattern, optional ranges and enumeration cases (libyang is outside
the excerpt).  A range is a list of inclusive (min, max) intervals. -/
structure TypeNode where
  kind : YangType
  pattern : Option String
  range : Option (List (Int × Int))
  enum_stmt : List String

/-- Modelled from the spec: a libyang schema `Entry`: name, typedef
(optional alias), type node, child entries, key names, `presence` flag,
plus the directory / leaf-list / empty-leaf classification used by
`is_directory_entry`, `is_leaflist` and `is_empty_leaf`. -/
inductive Entry where
  | mk (name : String) (typedef : Option String) (type_node : Option TypeNode)
       (dir : List Entry) (key : List String) (presence : Bool)
       (dirFlag : Bool) (leaflistFlag : Bool) (emptyLeafFlag : Bool)

def Entry.name : Entry → String
  | .mk n _ _ _ _ _ _ _ _ => n

def Entry.typedef : Entry → Option String
  | .mk _ t _ _ _ _ _ _ _ => t

def Entry.type_node : Entry → Option TypeNode
  | .mk _ _ tn _ _ _ _ _ _ => tn

def Entry.dir : Entry → List Entry
  | .mk _ _ _ d _ _ _ _ _ => d

def Entry.key : Entry → List String
  | .mk _ _ _ _ k _ _ _ _ => k

def Entry.presence : Entry → Bool
  | .mk _ _ _ _ _ p _ _ _ => p

def Entry.is_directory_entry : Entry → Bool
  | .mk _ _ _ _ _ _ d _ _ => d

def Entry.is_leaflist : Entry → Bool
  | .mk _ _ _ _ _ _ _ l _ => l

def Entry.is_empty_leaf : Entry → Bool
  | .mk _ _ _ _ _ _ _ _ e => e

/-- `Entry::has_key`: the entry has at least one key name. -/
def Entry.has_key (e : Entry) : Bool := !e.key.isEmpty

instance : Inhabited Entry := ⟨.mk "" none none [] [] false false false false⟩

/-- A configuration tree node: name and ordered children (configs.rs is
outside the excerpt; modelled from the spec). -/
inductive Config where
  | mk (name : String) (children : List Config)

def Config.name : Config → String
  | .mk n _ => n

def Config.children : Config → List Config
  | .mk _ cs => cs

instance : Inhabited Config := ⟨.mk "" []⟩

/-- A completion candidate: name, help text and the YangMatch that
determines its rendering marker. -/
structure Completion where
  name : String
  help : String
  ymatch : YangMatch
deriving DecidableEq

/-- Modelled from the spec: `cname` builds a plain keyword completion
(comps.rs is outside the excerpt). -/
def cname (k : String) : Completion := ⟨k, "", .Leaf⟩

/-- Modelled from the spec: `centry` builds a completion from an entry. -/
def centry (e : Entry) : Completion := ⟨e.name, "", .Leaf⟩

/-- Modelled from the spec: `crange` builds a range completion. -/
def crange (e : Entry) (_node : TypeNode) : Completion := ⟨e.name, "", .Leaf⟩

/-- Modelled from the spec: `comps_add_cr` appends the `<cr>` marker. -/
def comps_add_cr (comps : List Completion) : List Completion :=
  comps ++ [⟨"<cr>", "", .Leaf⟩]

/-- Modelled from the spec: `comps_append(&mut src, &mut dst)` drains the
first list into the second. -/
def comps_append (src dst : List Completion) : List Completion := dst ++ src

/-- Lexicographic order on character lists, the model of Rust's
`String::cmp` used by the Ambiguous sort. -/
def chars_le : List Char → List Char → Bool
  | [], _ => true
  | _ :: _, [] => false
  | a :: as, b :: bs => if a < b then true else if b < a then false else chars_le as bs

/-- `mx.comps.sort_by(|a, b| a.name.cmp(&b.name))`: a stable sort by
name, modelled as stable insertion sort. -/
def comps_insert (c : Completion) : List Completion → List Completion
  | [] => [c]
  | d :: ds =>
    if chars_le c.name.toList d.name.toList then c :: d :: ds
    else d :: comps_insert c ds

/-- Stable sort of a completion list by name. -/
def sort_by_name (l : List Completion) : List Completion :=
  l.foldr comps_insert []

/-- `CommandPath`: one decoded step of a parsed command. -/
structure CommandPath where
  name : String
  ymatch : YangMatch
  key : String
deriving DecidableEq

/-- Parser `State` (parse.rs).  The Rust field `show` is spelled `show'`
(`show` is reserved in Lean). -/
structure State where
  ymatch : YangMatch
  index : Nat
  set : Bool
  delete : Bool
  show' : Bool
  paths : List CommandPath
  links : List String

/-- `State::new`. -/
def State.new : State :=
  { ymatch := .Dir, index := 0, set := false, delete := false, show' := false
    paths := [], links := [] }

/-- `Match` accumulator of one parse step. -/
structure Match where
  pos : Nat := 0
  count : Nat := 0
  comps : List Completion := []
  matched_entry : Entry := default
  matched_type : MatchType := .None
  matched_config : Config := default

/-- `Match::new`. -/
def Match.new : Match := {}

/-! ## Token matching (parse.rs; util.rs helpers are modelled) -/

/-- Modelled from the spec: `longest_match` is the length of the longest
common prefix of the two strings (util.rs is outside the excerpt). -/
def longest_match : List Char → List Char → Nat
  | a :: as, b :: bs => if a = b then longest_match as bs + 1 else 0
  | _, _ => 0

/-- The parser treats the plain space as token whitespace. -/
def ws_char (c : Char) : Bool := c = ' '

/-- Modelled from the spec: `is_whitespace(s, pos)` — the character at
`pos` is whitespace (util.rs is outside the excerpt). -/
def is_whitespace (s : List Char) (pos : Nat) : Bool :=
  match s.get? pos with
  | some c => ws_char c
  | none => false

/-- Modelled from the spec: `is_delimiter(s, pos)` — `pos` is at the end
of the string or on whitespace (util.rs is outside the excerpt). -/
def is_delimiter (s : List Char) (pos : Nat) : Bool :=
  decide (s.length ≤ pos) || is_whitespace s pos

/-- `match_keyword`: longest common prefix, then None if the input does
not stop at a delimiter, Exact if the keyword is fully consumed, Partial
otherwise. -/
def match_keyword (src dst : List Char) : MatchType × Nat :=
  let pos := longest_match src dst
  match is_delimiter src pos with
  | false => (.None, pos)
  | true => if is_delimiter dst pos then (.Exact, pos) else (.Partial, pos)

/-- `match_word`: consume up to the next whitespace; always Partial. -/
def match_word (s : List Char) : MatchType × Nat :=
  (.Partial, (s.takeWhile (fun c => !ws_char c)).length)

/-- Modelled from the spec: the `regex` crate's unanchored `is_match`,
restricted to literal (metacharacter-free) patterns: the pattern occurs
somewhere in the string. -/
def regexIsMatch (pattern : String) (s : List Char) : Bool :=
  decide (List.IsInfix pattern.toList s)

/-- `match_regexp`: position stays 0; Exact if the regex matches, else
None. -/
def match_regexp (s : List Char) (regstr : String) : MatchType × Nat :=
  if regexIsMatch regstr s then (.Exact, 0) else (.None, 0)

/-- `match_string`: use the pattern when the type node has one, otherwise
match a word. -/
def match_string (s : List Char) (node : TypeNode) : MatchType × Nat :=
  match node.pattern with
  | some pattern => match_regexp s pattern
  | none => match_word s

/-- Decimal digits of an integer token. -/
def parse_digits (cs : List Char) : Option Nat :=
  if cs.isEmpty then none
  else if cs.all Char.isDigit then
    some (cs.foldl (fun a c => 10 * a + (c.toNat - 48)) 0)
  else none

/-- Rust's `str::parse` for signed integers: optional minus then digits. -/
def parse_int_token : List Char → Option Int
  | '-' :: cs => (parse_digits cs).map fun n => -(n : Int)
  | cs => (parse_digits cs).map fun n => (n : Int)

/-- `match_range::<T>`: truncate at the first space, parse as `T` (bounds
`lo..hi` of the integer type), then require membership in a declared
range when present.  Exact consumes the token, any failure is None. -/
def match_range (input : List Char) (node : TypeNode) (lo hi : Int) :
    MatchType × Nat :=
  let s := input.takeWhile (fun c => c ≠ ' ')
  match parse_int_token s with
  | none => (.None, 0)
  | some v =>
    if v < lo ∨ hi < v then (.None, 0)
    else
      match node.range with
      | none => (.Exact, s.length)
      | some ranges =>
        if ranges.any (fun r => decide (r.1 ≤ v ∧ v ≤ r.2)) then (.Exact, s.length)
        else (.None, 0)

/-- Bounds of the Rust integer type backing each numeric YangType. -/
def YangType.intBounds : YangType → Option (Int × Int)
  | .Int8 => some (-128, 127)
  | .Int16 => some (-32768, 32767)
  | .Int32 => some (-2147483648, 2147483647)
  | .Int64 => some (-9223372036854775808, 9223372036854775807)
  | .Uint8 => some (0, 255)
  | .Uint16 => some (0, 65535)
  | .Uint32 => some (0, 4294967295)
  | .Uint64 => some (0, 18446744073709551615)
  | _ => none

/-- Modelled from the spec: `match_ipv4_addr` (ip.rs is outside the
excerpt) — the token up to whitespace must be a dotted quad. -/
def valid_ipv4 (s : List Char) : Bool :=
  let parts := List.splitOn '.' s
  parts.length == 4 &&
    parts.all fun p => match parse_digits p with
      | some v => decide (v ≤ 255)
      | none => false

/-- Modelled from the spec: IPv4 address token matcher. -/
def match_ipv4_addr (input : List Char) : MatchType × Nat :=
  let s := input.takeWhile (fun c => c ≠ ' ')
  if valid_ipv4 s then (.Exact, s.length) else (.None, 0)

/-- Modelled from the spec: IPv4 prefix token matcher (`A.B.C.D/M`). -/
def match_ipv4_net (input : List Char) : MatchType × Nat :=
  let s := input.takeWhile (fun c => c ≠ ' ')
  match List.splitOn '/' s with
  | [a, m] =>
    if valid_ipv4 a then
      match parse_digits m with
      | some v => if v ≤ 32 then (.Exact, s.length) else (.None, 0)
      | none => (.None, 0)
    else (.None, 0)
  | _ => (.None, 0)

/-- Modelled from the spec: IPv6 address token matcher (loose syntactic
check: hex digits and colons, at least one colon). -/
def valid_ipv6 (s : List Char) : Bool :=
  !s.isEmpty && s.contains ':' &&
    s.all fun c => c.isDigit || c = ':' ||
      ('a' ≤ c && c ≤ 'f') || ('A' ≤ c && c ≤ 'F')

/-- Modelled from the spec: IPv6 address token matcher. -/
def match_ipv6_addr (input : List Char) : MatchType × Nat :=
  let s := input.takeWhile (fun c => c ≠ ' ')
  if valid_ipv6 s then (.Exact, s.length) else (.None, 0)

/-- Modelled from the spec: IPv6 prefix token matcher (`X:X::X:X/M`). -/
def match_ipv6_net (input : List Char) : MatchType × Nat :=
  let s := input.takeWhile (fun c => c ≠ ' ')
  match List.splitOn '/' s with
  | [a, m] =>
    if valid_ipv6 a then
      match parse_digits m with
      | some v => if v ≤ 128 then (.Exact, s.length) else (.None, 0)
      | none => (.None, 0)
    else (.None, 0)
  | _ => (.None, 0)

/-- `Match::process`: ignore None; a strictly better type resets the best
match and the count; an equally good one increments the count; the
completion is recorded for every non-None candidate. -/
def Match.process (m : Match) (entry : Entry) (r : MatchType × Nat)
    (comp : Completion) : Match :=
  if r.1 = MatchType.None then m
  else if m.matched_type.toNat < r.1.toNat then
    { m with count := 1, pos := r.2, matched_type := r.1, matched_entry := entry,
             comps := m.comps ++ [comp] }
  else if r.1 = m.matched_type then
    { m with count := m.count + 1, comps := m.comps ++ [comp] }
  else { m with comps := m.comps ++ [comp] }

/-- `Match::match_keyword`: process a keyword candidate. -/
def Match.match_keyword (m : Match) (entry : Entry) (input : List Char)
    (keyword : String) : Match :=
  m.process entry (Zebra.match_keyword input keyword.toList) (cname keyword)

/-- `ytype_from_typedef`: an inet typedef overrides the base kind. -/
def ytype_from_typedef : Option String → Option YangType
  | some "inet:ipv4-address" => some .Ipv4Addr
  | some "inet:ipv4-prefix" => some .Ipv4Prefix
  | some "inet:ipv6-address" => some .Ipv6Addr
  | some "inet:ipv6-prefix" => some .Ipv6Prefix
  | _ => none

/-- `entry_match_type`: dispatch on the (possibly typedef-overridden)
YangType, then add the link names when the entry is named `interface`. -/
def entry_match_type (entry : Entry) (input : List Char) (m : Match)
    (s : State) : Match :=
  let m :=
    match entry.type_node with
    | none => m
    | some node =>
      let kind := (ytype_from_typedef entry.typedef).getD node.kind
      match kind.intBounds with
      | some (lo, hi) => m.process entry (match_range input node lo hi) (crange entry node)
      | none =>
        match kind with
        | .Boolean =>
          let m := m.process entry (match_keyword input "true".toList) (cname "true")
          m.process entry (match_keyword input "false".toList) (cname "false")
        | .Ipv4Addr => m.process entry (match_ipv4_addr input) (cname "A.B.C.D")
        | .Ipv4Prefix => m.process entry (match_ipv4_net input) (cname "A.B.C.D/M")
        | .Ipv6Addr => m.process entry (match_ipv6_addr input) (cname "X:X::X:X")
        | .Ipv6Prefix => m.process entry (match_ipv6_net input) (cname "X:X::X:X/M")
        | .Enumeration =>
          node.enum_stmt.foldl
            (fun m n => m.process entry (match_keyword input n.toList) (cname n)) m
        | _ => m.process entry (match_string input node) (centry entry)
  if entry.name = "interface" then
    s.links.foldl (fun m link => m.match_keyword entry input link) m
  else m

/-- `entry_match_dir`: match the token against each child entry's name. -/
def entry_match_dir (entry : Entry) (str : List Char) (m : Match) : Match :=
  entry.dir.foldl (fun m e => m.match_keyword e str e.name) m

/-- `entry_key`: the child entry backing the key at `index`. -/
def entry_key (entry : Entry) (index : Nat) : Option Entry :=
  if entry.key.length ≤ index then none
  else entry.dir.find? (fun e => e.name == entry.key.getD index "")

/-- `entry_match_key`: match against the type of the key at the state's
index. -/
def entry_match_key (entry : Entry) (input : List Char) (m : Match)
    (s : State) : Match :=
  match entry_key entry s.index with
  | some e => entry_match_type e input m s
  | none => m

/-- `entry_is_key`: the name is one of the key names. -/
def entry_is_key (name : String) (keys : List String) : Bool :=
  keys.any (· == name)

/-- `entry_match_key_matched`: match against the non-key children. -/
def entry_match_key_matched (entry : Entry) (str : List Char) (m : Match) : Match :=
  entry.dir.foldl
    (fun m e => if !entry_is_key e.name entry.key then m.match_keyword e str e.name else m) m

/-- `ymatch_next`: the YangMatch transition for a matched entry. -/
def ymatch_next (entry : Entry) (ymatch : YangMatch) : YangMatch :=
  match ymatch with
  | .Dir | .DirMatched | .KeyMatched =>
    if entry.is_directory_entry then
      if entry.has_key then .Key else .Dir
    else if entry.is_leaflist then .LeafList
    else .Leaf
  | .Key => .KeyMatched
  | .Leaf => .LeafMatched
  | .LeafList => .LeafListMatched
  | .LeafMatched | .LeafListMatched => ymatch

/-- `ymatch_complete`: the modes that denote a complete path element. -/
def ymatch_complete (ymatch : YangMatch) : Bool :=
  ymatch == .DirMatched || ymatch == .KeyMatched ||
    ymatch == .LeafMatched || ymatch == .LeafListMatched

/-! ## The recursive parser (parse.rs) -/

/-- Modelled from the spec: `config_match` matches the token against the
children of the current config subtree (configs.rs is outside the
excerpt), recording the matched child in `matched_config`; ranking and
counting mirror `Match::process`. -/
def config_match (config : Config) (input : List Char) (m : Match) : Match :=
  config.children.foldl
    (fun m c =>
      let r := match_keyword input c.name.toList
      if r.1 = MatchType.None then m
      else if m.matched_type.toNat < r.1.toNat then
        { m with count := 1, pos := r.2, matched_type := r.1, matched_config := c,
                 comps := m.comps ++ [cname c.name] }
      else if r.1 = m.matched_type then
        { m with count := m.count + 1, comps := m.comps ++ [cname c.name] }
      else { m with comps := m.comps ++ [cname c.name] })
    m

/-- Completion entry for a schema child, carrying the marker-relevant
YangMatch. -/
def comp_of_entry (e : Entry) : Completion :=
  ⟨e.name, "",
    if e.is_directory_entry then (if e.has_key then .Key else .Dir) else .Leaf⟩

/-- Modelled from the spec: `comps_add_all` regenerates completions for
the next position from the schema (comps.rs is outside the excerpt). -/
def comps_add_all (ymatch : YangMatch) (entry : Entry) (s : State) :
    List Completion :=
  match ymatch with
  | .Dir | .DirMatched => entry.dir.map comp_of_entry
  | .Key =>
    match entry_key entry s.index with
    | some e => [comp_of_entry e]
    | none => []
  | .KeyMatched =>
    (entry.dir.filter (fun e => !entry_is_key e.name entry.key)).map comp_of_entry
  | .Leaf | .LeafList | .LeafListMatched => [centry entry]
  | .LeafMatched => []

/-- Modelled from the spec: `comps_add_config` regenerates completions
from the current config subtree (comps.rs is outside the excerpt). -/
def comps_add_config (_ymatch : YangMatch) (config : Option Config) :
    List Completion :=
  match config with
  | some c => c.children.map (fun ch => cname ch.name)
  | none => []

/-- Skip whitespace starting at `pos` (the `while … is_whitespace` loop). -/
def skip_ws (input : List Char) (pos : Nat) : Nat :=
  pos + ((input.drop pos).takeWhile ws_char).length

/-- Result triple of `parse`. -/
abbrev ParseResult := ExecCode × List Completion × Zebra.State

/-- First half of the tail of a `parse` step: merge set-mode completions
into the entry completions and take the YangMatch transition with its two
fixups (empty leaf, presence directory).  Returns the updated match, the
`next` entry and the updated state. -/
def parseTrans (input : List Char) (entry : Entry) (s : State) (cx mx : Match) :
    Match × Entry × State :=
  let _ := input
  let mx := if s.set then { mx with comps := comps_append cx.comps mx.comps } else mx
  let step : Entry × State :=
    match s.ymatch with
    | .Dir | .DirMatched | .KeyMatched =>
      let next := mx.matched_entry
      let ym := ymatch_next mx.matched_entry s.ymatch
      (next, { s with ymatch := ym, index := if ym = .Key then 0 else s.index })
    | .Key =>
      let idx := s.index + 1
      (entry, { s with
                index := idx
                ymatch := if entry.key.length ≤ idx then .KeyMatched else s.ymatch })
    | .Leaf => (entry, { s with ymatch := .LeafMatched })
    | .LeafList => (entry, { s with ymatch := .LeafListMatched })
    | .LeafMatched | .LeafListMatched => (entry, s)
  let next := step.1
  let s := step.2
  let s := if s.ymatch = .Leaf ∧ mx.matched_entry.is_empty_leaf then
             { s with ymatch := .LeafMatched } else s
  let s := if s.ymatch = .Dir ∧ mx.matched_entry.presence then
             { s with ymatch := .DirMatched } else s
  (mx, next, s)

/-- Second half of the tail of a `parse` step: emit the CommandPath, set
the reserved-keyword flags, add `<cr>`, skip trailing whitespace
(regenerating the completions when some was skipped), and either finish on
an empty remainder or recurse through `recur`. -/
def parseTail (recur : List Char → Entry → Option Config → State → Option ParseResult)
    (input : List Char) (config : Option Config) (next : Entry) (s : State)
    (mx : Match) : Option ParseResult :=
  let path : CommandPath :=
    if ymatch_complete s.ymatch then
      ⟨(input.take mx.pos).asString, s.ymatch, mx.matched_entry.name⟩
    else ⟨mx.matched_entry.name, s.ymatch, ""⟩
  let s := if path.name = "set" then { s with set := true } else s
  let s := if path.name = "delete" then { s with delete := true } else s
  let s := if path.name = "show" then { s with show' := true } else s
  let s := { s with paths := s.paths ++ [path] }
  let mx := if ymatch_complete s.ymatch ∧ mx.matched_type = .Exact then
              { mx with comps := comps_add_cr mx.comps } else mx
  let start := mx.pos
  let pos := skip_ws input mx.pos
  let mx := { mx with pos := pos }
  let mx :=
    if pos ≠ start then
      { mx with comps :=
          if s.delete then comps_add_config s.ymatch config
          else
            let base := comps_add_all s.ymatch next s
            if s.set then comps_append (comps_add_config s.ymatch config) base
            else base }
    else mx
  let remain := input.drop mx.pos
  if remain.isEmpty then
    if !ymatch_complete s.ymatch then some (.Incomplete, mx.comps, s)
    else if mx.matched_type = .Incomplete then some (.Incomplete, mx.comps, s)
    else some (.Success, mx.comps, s)
  else
    let s := if next.name = "set" then { s with set := true } else s
    let s := if next.name = "delete" then { s with delete := true } else s
    recur remain next config s

/-- The tail of one `parse` step after the match-count checks passed with
exactly one best candidate. -/
def parseGo (recur : List Char → Entry → Option Config → State → Option ParseResult)
    (input : List Char) (entry : Entry) (config : Option Config) (s : State)
    (cx mx : Match) : Option ParseResult :=
  let r := parseTrans input entry s cx mx
  parseTail recur input config r.2.1 r.2.2 r.1

/-- The per-step schema match of `parse`, dispatched on the YangMatch. -/
def entry_match (s : State) (entry : Entry) (input : List Char) : Match :=
  match s.ymatch with
  | .Dir | .DirMatched => entry_match_dir entry input Match.new
  | .Key => entry_match_key entry input Match.new s
  | .KeyMatched => entry_match_key_matched entry input Match.new
  | .Leaf | .LeafList | .LeafListMatched => entry_match_type entry input Match.new s
  | .LeafMatched => Match.new

/-- `parse` (parse.rs), with explicit recursion fuel: the Rust function
recurses on the remainder of the input, which — see C10 — does not always
shrink, so the embedding cannot be well-founded on the input.  `none`
means the fuel ran out, i.e. the chain of recursive calls exceeded
`fuel`. -/
def parseF : Nat → List Char → Entry → Option Config → State → Option ParseResult
  | 0, _, _, _, _ => none
  | fuel + 1, input, entry, config, s =>
    let cx :=
      if s.set || s.delete then
        match config with
        | some c => config_match c input Match.new
        | none => Match.new
      else Match.new
    if s.delete ∧ cx.count = 0 then some (.Nomatch, cx.comps, s)
    else if s.delete ∧ 1 < cx.count then some (.Ambiguous, cx.comps, s)
    else
      let config :=
        if s.set || s.delete then
          if cx.count = 1 then some cx.matched_config else none
        else config
      let mx0 := entry_match s entry input
      let mx := if s.delete then { mx0 with comps := cx.comps } else mx0
      if mx.count = 0 then some (.Nomatch, mx.comps, s)
      else if 1 < mx.count then some (.Ambiguous, sort_by_name mx.comps, s)
      else parseGo (fun i e c st => parseF fuel i e c st) input entry config s cx mx

/-! ## Configuration store and manager (manager.rs) -/

mutual
/-- Modelled from the spec: `carbon_copy` deep-copies a configuration
tree (configs.rs is outside the excerpt). -/
def carbon_copy : Config → Config
  | .mk n cs => .mk n (carbon_copy_children cs)
/-- Deep copy of the child list. -/
def carbon_copy_children : List Config → List Config
  | [] => []
  | c :: cs => carbon_copy c :: carbon_copy_children cs
end

/-- `ConfigStore`: the running and candidate trees. -/
structure ConfigStore where
  running : Config
  candidate : Config

/-- `ConfigStore::new`: both trees rooted at an empty node. -/
def ConfigStore.new : ConfigStore :=
  { running := .mk "" [], candidate := .mk "" [] }

/-- `ConfigStore::commit`: running ← deep-copy(candidate). -/
def ConfigStore.commit (s : ConfigStore) : ConfigStore :=
  { s with running := carbon_copy s.candidate }

/-- `ConfigStore::discard`: candidate ← deep-copy(running). -/
def ConfigStore.discard (s : ConfigStore) : ConfigStore :=
  { s with candidate := carbon_copy s.running }

/-- A chain of single-child config nodes for the unmatched tail of a
set path. -/
def config_chain : String → List String → Config
  | name, [] => .mk name []
  | name, n2 :: rest => .mk name [config_chain n2 rest]

mutual
/-- Modelled from the spec: `config_set` walks the candidate tree along
the path elements, creating missing children (configs.rs is outside the
excerpt). -/
def config_set : List String → Config → Config
  | [], c => c
  | name :: rest, .mk n cs =>
    if cs.any (fun ch => ch.name == name) then
      .mk n (config_set_existing name rest cs)
    else .mk n (cs ++ [config_chain name rest])
/-- Apply `config_set` to the child carrying the matched name. -/
def config_set_existing : String → List String → List Config → List Config
  | _, _, [] => []
  | name, rest, ch :: chs =>
    if ch.name == name then config_set rest ch :: config_set_existing name rest chs
    else ch :: config_set_existing name rest chs
end

mutual
/-- Modelled from the spec: `delete` walks the candidate tree; when the
path resolves the subtree is removed (configs.rs is outside the
excerpt). -/
def config_delete : List String → Config → Config
  | [], c => c
  | [name], .mk n cs => .mk n (cs.filter (fun ch => !(ch.name == name)))
  | name :: rest, .mk n cs => .mk n (config_delete_in name rest cs)
/-- Apply `config_delete` inside the child carrying the matched name. -/
def config_delete_in : String → List String → List Config → List Config
  | _, _, [] => []
  | name, rest, ch :: chs =>
    if ch.name == name then config_delete rest ch :: config_delete_in name rest chs
    else ch :: config_delete_in name rest chs
end

/-- Modelled from the spec: `elem_str` renders the dotted function-map
path of the accumulated CommandPaths (elem.rs is outside the excerpt). -/
def elem_str (paths : List CommandPath) : String :=
  String.intercalate "." (paths.map CommandPath.name)

/-- A command `Mode`: schema root and function map.  Modelled from the
spec: registered functions return an ExecCode and output lines
(commands.rs is outside the excerpt). -/
structure Mode where
  entry : Entry
  fmap : List (String × (ExecCode × String))

/-- Lookup in the function map. -/
def fmap_lookup (fmap : List (String × (ExecCode × String))) (k : String) :
    Option (ExecCode × String) :=
  (fmap.find? (fun p => p.1 == k)).map (·.2)

/-- `ConfigManager::execute`: parse over the candidate tree; a parse whose
state carries `set` runs `config_set`, one carrying `delete` runs
`config_delete` (both report Show); `show` with more than one path element
redirects; otherwise consult the function map and fall back to the parse
code.  The returned store is the store after the command. -/
def execute (fuel : Nat) (mode : Mode) (store : ConfigStore) (input : String) :
    Option (ExecCode × String × ConfigStore) :=
  match parseF fuel input.toList mode.entry (some store.candidate) State.new with
  | none => none
  | some (code, _comps, st) =>
    if st.set then
      some (.Show, "",
        { store with candidate := config_set (st.paths.map CommandPath.name) store.candidate })
    else if st.delete then
      some (.Show, "",
        { store with candidate := config_delete (st.paths.map CommandPath.name) store.candidate })
    else if st.show' ∧ 1 < st.paths.length then
      some (.RedirectShow, input, store)
    else
      match fmap_lookup mode.fmap (elem_str st.paths) with
      | some r => some (r.1, r.2, store)
      | none => some (code, "", store)

/-- `ConfigManager::completion`: parse and return the code and the
completion list. -/
def completion (fuel : Nat) (mode : Mode) (store : ConfigStore) (input : String) :
    Option (ExecCode × List Completion) :=
  (parseF fuel input.toList mode.entry (some store.candidate) State.new).map
    fun r => (r.1, r.2.1)

/-! ## Completion rendering (serve.rs) -/

/-- `comp_commands`: the leading status line followed by one rendered line
per completion; `Key` entries carry the `+>` marker, `Dir` entries the
`->` marker, all others two spaces. -/
def comp_commands (code : ExecCode) (comps : List Completion) : String :=
  let line :=
    match code with
    | .Success | .Incomplete => "Success\n"
    | .Nomatch => "NoMatch\n"
    | .Ambiguous => "Ambiguous\n"
    | _ => "NoMatch\n"
  comps.foldl
    (fun line comp =>
      if comp.ymatch = YangMatch.Key then
        line ++ comp.name ++ "\t+>\t" ++ comp.help ++ "\n"
      else if comp.ymatch = YangMatch.Dir then
        line ++ comp.name ++ "\t->\t" ++ comp.help ++ "\n"
      else line ++ comp.name ++ "\t  \t" ++ comp.help ++ "\n")
    line

/-! ## Helpers for stating the ranking and rendering properties -/

/-- One match candidate as fed to `Match::process`: the entry, the
(type, position) result of its matcher, and its completion. -/
abbrev Cand := Entry × (MatchType × Nat) × Completion

/-- Process a whole candidate list, left to right, exactly as the Rust
matcher loops do. -/
def processAll (m : Match) (l : List Cand) : Match :=
  l.foldl (fun m t => m.process t.1 t.2.1 t.2.2) m

/-- The rank of the best match type among the candidates. -/
def bestTypeN (l : List Cand) : Nat :=
  l.foldr (fun t a => max t.2.1.1.toNat a) 0

/-- How many candidates carry exactly the (non-None) best type. -/
def countBest (l : List Cand) (t : MatchType) : Nat :=
  if t = MatchType.None then 0
  else (l.filter (fun c => decide (c.2.1.1 = t))).length

/-- Name order on completions, the key of the Ambiguous sort. -/
def compLe (a b : Completion) : Prop :=
  chars_le a.name.toList b.name.toList = true

/-- The status line `comp_commands` puts first. -/
def status_line (code : ExecCode) : String :=
  match code with
  | .Success | .Incomplete => "Success\n"
  | .Nomatch => "NoMatch\n"
  | .Ambiguous => "Ambiguous\n"
  | _ => "NoMatch\n"

/-- The rendering of a single completion entry. -/
def comp_line (comp : Completion) : String :=
  if comp.ymatch = YangMatch.Key then comp.name ++ "\t+>\t" ++ comp.help ++ "\n"
  else if comp.ymatch = YangMatch.Dir then comp.name ++ "\t->\t" ++ comp.help ++ "\n"
  else comp.name ++ "\t  \t" ++ comp.help ++ "\n"

/-! ## Concrete schemas used as witnesses and counterexamples -/

/-- A leaf entry of plain string type with no pattern. -/
def leafString (name : String) : Entry :=
  .mk name none (some ⟨.String, none, none, []⟩) [] [] false false false false

/-- A directory entry without keys. -/
def dirEntry (name : String) (children : List Entry) : Entry :=
  .mk name none none children [] false true false false

/-- A small mode schema: one leaf child `hostname`. -/
def modeW : Mode := { entry := dirEntry "" [leafString "hostname"], fmap := [] }

/-- A directory whose two children `bar1` and `bar2` both match the token
`ba` partially. -/
def ambigEntry : Entry := dirEntry "" [dirEntry "bar1" [], dirEntry "bar2" []]

/-- A leaf-list entry of string type whose pattern `a` matches without
consuming input. -/
def llEntry : Entry :=
  .mk "names" none (some ⟨.String, some "a", none, []⟩) [] [] false false true false

/-- A parse state sitting at LeafListMatched, as reached after the first
leaf-list value was consumed. -/
def sLL : State := { State.new with ymatch := .LeafListMatched }

end Zebra

namespace Bgpd

/-! ## Theorems -/

/-- C1: a peer in OpenSent receiving BGPOpen goes to Established with the
keepalive timer armed at 30 s periodic and the hold timer armed at 180 s
when the packet's ASN equals the configured peer_as and its bgp_id equals
the neighbor address octets; on an ASN or bgp_id mismatch it goes to Idle. -/
theorem fsm_bgp_open_correct (p : Peer) (pkt : OpenPacket)
    (hs : p.state = State.OpenSent) :
    (pkt.asn = p.peer_as ∧ pkt.bgp_id = p.address.octets →
      ∃ q, fsm p (.BGPOpen pkt) = some q ∧ q.state = State.Established ∧
        q.timer.keepalive = some ⟨30, .Infinite, .KeepaliveTimerExpires⟩ ∧
        q.timer.hold_timer = some ⟨180, .Infinite, .HoldTimerExpires⟩) ∧
    (pkt.asn ≠ p.peer_as ∨ pkt.bgp_id ≠ p.address.octets →
      ∃ q, fsm p (.BGPOpen pkt) = some q ∧ q.state = State.Idle) := by
  constructor
  · rintro ⟨hasn, hid⟩
    simp [fsm, fsm_bgp_open, hs, hasn, hid, peer_start_keepalive, peer_start_holdtimer]
  · intro hmis
    rcases hmis with h | h <;>
      simp [fsm, fsm_bgp_open, hs, h, fsm_stop, fsm_init, Peer.is_passive]

/-- C1 witness: the handshake scenario peer accepts the matching Open. -/
theorem fsm_bgp_open_correct_witness :
    ∃ q, fsm peerOpenSent (.BGPOpen openPktGood) = some q ∧
      q.state = State.Established ∧
      q.timer.keepalive = some ⟨30, .Infinite, .KeepaliveTimerExpires⟩ ∧
      q.timer.hold_timer = some ⟨180, .Infinite, .HoldTimerExpires⟩ :=
  (fsm_bgp_open_correct peerOpenSent openPktGood rfl).1 ⟨rfl, rfl⟩

/-- C2 counterexample: after Stop from Connect the connect task is still
live and the send channel is still held, contradicting "all tasks ... are
cancelled" and "the send channel into the Writer is dropped". -/
theorem fsm_stop_counterexample :
    ∃ q, fsm peerConnect .Stop = some q ∧ q.state = State.Idle ∧
      q.task.connect = some () ∧ q.packet_tx = true := by
  refine ⟨_, rfl, ?_⟩
  simp [fsm, fsm_stop, fsm_init, Peer.is_passive, peerConnect, peer_start_idle_hold_timer]

/-- C2 amended: after Stop from any state the reader and writer tasks and
the idle-hold, connect-retry, keepalive and hold timers are cancelled, the
idle-hold timer is re-armed at 5 s one-shot, and the state is Idle; the
connect task, the send channel and the min-as-origin / min-route-adv
timers are left untouched. -/
theorem fsm_stop_cleanup (p : Peer) :
    ∃ q, fsm p .Stop = some q ∧
      q.task.reader = none ∧ q.task.writer = none ∧
      q.timer.idle_hold_timer = some ⟨5, .Once, .Start⟩ ∧
      q.timer.connect_retry = none ∧ q.timer.keepalive = none ∧
      q.timer.hold_timer = none ∧ q.state = State.Idle ∧
      q.task.connect = p.task.connect ∧ q.packet_tx = p.packet_tx ∧
      q.timer.min_as_origin = p.timer.min_as_origin ∧
      q.timer.min_route_adv = p.timer.min_route_adv := by
  by_cases h : p.state = State.Idle <;>
    simp [fsm, fsm_stop, fsm_init, Peer.is_passive, peer_start_idle_hold_timer, h]

/-- C3 counterexample: a KeepAliveMsg processed in Idle moves the peer to
Established, so the blank cell (Idle, KeepAliveMsg) does not leave the
state unchanged. -/
theorem fsm_blank_cell_counterexample :
    ∃ q, fsm peerIdle .KeepAliveMsg = some q ∧ q.state = State.Established := by
  exact ⟨_, rfl, rfl⟩

/-- C3 amended: blank-cell events are not ignored; the handlers compute
the next state without looking at the current one.  KeepAliveMsg and
UpdateMsg always yield Established, Connected always yields OpenSent,
ConnFail always yields Active, Start always yields Connect, and
KeepaliveTimerExpires yields Established when the send channel exists and
panics otherwise. -/
theorem fsm_blank_cells_not_ignored (p : Peer) :
    (∃ q, fsm p .KeepAliveMsg = some q ∧ q.state = State.Established) ∧
    (∀ up, ∃ q, fsm p (.UpdateMsg up) = some q ∧ q.state = State.Established) ∧
    (∃ q, fsm p (.Connected ()) = some q ∧ q.state = State.OpenSent) ∧
    (∃ q, fsm p .ConnFail = some q ∧ q.state = State.Active) ∧
    (∃ q, fsm p .Start = some q ∧ q.state = State.Connect) ∧
    (p.packet_tx = true →
      ∃ q, fsm p .KeepaliveTimerExpires = some q ∧ q.state = State.Established) ∧
    (p.packet_tx = false → fsm p .KeepaliveTimerExpires = none) := by
  refine ⟨?_, fun up => ?_, ?_, ?_, ?_, fun h => ?_, fun h => ?_⟩
  · simp [fsm, fsm_bgp_keepalive, peer_refresh_holdtimer]
  · simp [fsm, fsm_bgp_update, peer_refresh_holdtimer]
  · simp [fsm, fsm_connected, peer_send_open, peer_send_keepalive]
  · simp [fsm, fsm_conn_fail]
  · simp [fsm, fsm_start]
  · simp [fsm, fsm_keepalive_expires, peer_send_keepalive, h]
  · simp [fsm, fsm_keepalive_expires, peer_send_keepalive, h]

/-- C3 witness: the amended keepalive-timer clause at a concrete peer that
holds a send channel. -/
theorem fsm_blank_cells_not_ignored_witness :
    ∃ q, fsm peerConnect .KeepaliveTimerExpires = some q ∧
      q.state = State.Established :=
  (fsm_blank_cells_not_ignored peerConnect).2.2.2.2.2.1 rfl

/-- C4: behavior of the Reader at the decisive inputs.  A read of 0 bytes
posts ConnFail and terminates the task; a complete frame (and two frames
arriving in one read) are sliced off and posted; but an I/O error posts
ConnFail and leaves the loop running — the `Err` arm has no `return`, so
the task does not terminate as claimed. -/
theorem peer_read_io_error_keeps_looping :
    peer_read_model [] [.ok []] = ([.ConnFail], .returned) ∧
    peer_read_model [] [.ok keepaliveFrame] = ([.KeepAliveMsg], .running) ∧
    peer_read_model [] [.ok (keepaliveFrame ++ keepaliveFrame)] =
      ([.KeepAliveMsg, .KeepAliveMsg], .running) ∧
    peer_read_model [] [.err] = ([.ConnFail], .running) ∧
    peer_read_model [] [.err, .ok keepaliveFrame] =
      ([.ConnFail, .KeepAliveMsg], .running) := by
  refine ⟨rfl, ?_, ?_, rfl, ?_⟩ <;> rfl

/-- C9: whenever `parse_bgp_packet` fails on the bytes the Reader sliced
off, `peer_packet_parse` panics (the `expect` branch) and posts no event. -/
theorem peer_packet_parse_panics_on_bad_input (bs : List Nat)
    (h : parse_bgp_packet bs = none) : peer_packet_parse bs = none := by
  simp [peer_packet_parse, h]

/-- C9 witness: a 19-byte frame with type byte 9 does not parse, and the
Reader panics on it. -/
theorem peer_packet_parse_panics_witness :
    parse_bgp_packet badTypeFrame = none ∧
    peer_packet_parse badTypeFrame = none :=
  ⟨rfl, peer_packet_parse_panics_on_bad_input badTypeFrame rfl⟩
end Bgpd

namespace Zebra

/-! ## Theorems: configuration engine -/

mutual
/-- A deep copy of a configuration tree is the tree itself (helper). -/
theorem carbon_copy_eq_self : ∀ c : Config, carbon_copy c = c
  | .mk n cs => by rw [carbon_copy, carbon_copy_children_eq_self cs]
/-- A deep copy of a child list is the list itself (helper). -/
theorem carbon_copy_children_eq_self : ∀ cs : List Config, carbon_copy_children cs = cs
  | [] => rfl
  | c :: cs => by
    rw [carbon_copy_children, carbon_copy_eq_self c, carbon_copy_children_eq_self cs]
end

/-- C6: commit deep-copies candidate into running and discard deep-copies
running into candidate; hence commit followed by discard leaves the two
trees equal, and discard followed by commit (with no intervening edits)
leaves them equal as well. -/
theorem commit_discard_roundtrip (store : ConfigStore) :
    (store.commit).running = carbon_copy store.candidate ∧
    (store.discard).candidate = carbon_copy store.running ∧
    ((store.commit).discard).running = ((store.commit).discard).candidate ∧
    ((store.discard).commit).running = ((store.discard).commit).candidate := by
  refine ⟨rfl, rfl, ?_, ?_⟩ <;>
    simp [ConfigStore.commit, ConfigStore.discard, carbon_copy_eq_self]

/-- C8 counterexample: a completion response with code Incomplete renders
the status line `Success`, not `Incomplete`. -/
theorem comp_commands_incomplete_counterexample :
    comp_commands .Incomplete [] = "Success\n" ∧
    comp_commands .Incomplete [] ≠ "Incomplete\n" := by
  exact ⟨rfl, by decide⟩

/-- Folding the render step over a list equals rendering each entry and
concatenating (helper). -/
theorem comp_commands_foldl (comps : List Completion) (acc : String) :
    comps.foldl
      (fun line comp =>
        if comp.ymatch = YangMatch.Key then
          line ++ comp.name ++ "\t+>\t" ++ comp.help ++ "\n"
        else if comp.ymatch = YangMatch.Dir then
          line ++ comp.name ++ "\t->\t" ++ comp.help ++ "\n"
        else line ++ comp.name ++ "\t  \t" ++ comp.help ++ "\n")
      acc = acc ++ (comps.map comp_line).foldr (· ++ ·) "" := by
  induction comps generalizing acc with
  | nil => simp
  | cons c cs ih =>
    simp only [List.foldl_cons, List.map_cons, List.foldr_cons, ih, comp_line]
    split_ifs <;> simp [String.append_assoc]

/-- C8 amended: `comp_commands` is the status line followed by the
rendering of each entry in order; Key entries carry the `+>` marker, Dir
entries the `->` marker and all others two spaces; the status line is
`Success` for the codes Success and Incomplete, `NoMatch` for Nomatch and
any unlisted code, and `Ambiguous` for Ambiguous. -/
theorem comp_commands_spec (code : ExecCode) (comps : List Completion)
    (name help : String) (ym : YangMatch) :
    comp_commands code comps =
      status_line code ++ (comps.map comp_line).foldr (· ++ ·) "" ∧
    comp_line ⟨name, help, .Key⟩ = name ++ "\t+>\t" ++ help ++ "\n" ∧
    comp_line ⟨name, help, .Dir⟩ = name ++ "\t->\t" ++ help ++ "\n" ∧
    (ym ≠ .Key → ym ≠ .Dir →
      comp_line ⟨name, help, ym⟩ = name ++ "\t  \t" ++ help ++ "\n") ∧
    status_line .Success = "Success\n" ∧
    status_line .Incomplete = "Success\n" ∧
    status_line .Nomatch = "NoMatch\n" ∧
    status_line .Ambiguous = "Ambiguous\n" := by
  refine ⟨?_, rfl, rfl, fun h1 h2 => ?_, rfl, rfl, rfl, rfl⟩
  · exact comp_commands_foldl comps (status_line code)
  · simp [comp_line, h1, h2]

/-- C8 witness: a Leaf entry (neither Key nor Dir) renders with the
two-space marker. -/
theorem comp_commands_spec_witness :
    comp_line ⟨"bgp", "BGP config", .Leaf⟩ =
      "bgp" ++ "\t  \t" ++ "BGP config" ++ "\n" :=
  (comp_commands_spec .Success [] "bgp" "BGP config" .Leaf).2.2.2.1
    (by decide) (by decide)

/-- C5: when `execute` yields a user command error code (Nomatch,
Ambiguous or Incomplete), the configuration store is returned unchanged:
the set and delete branches always report Show, the show redirect reports
RedirectShow, and the remaining branches never touch the store. -/
theorem execute_error_leaves_store (fuel : Nat) (mode : Mode)
    (store : ConfigStore) (input : String) (code : ExecCode) (out : String)
    (store' : ConfigStore)
    (h : execute fuel mode store input = some (code, out, store'))
    (herr : code = .Nomatch ∨ code = .Ambiguous ∨ code = .Incomplete) :
    store' = store := by
  rcases herr with rfl | rfl | rfl <;>
  · unfold execute at h
    cases hp : parseF fuel input.toList mode.entry (some store.candidate) State.new with
    | none => rw [hp] at h; simp at h
    | some r =>
      obtain ⟨c2, comps2, st2⟩ := r
      simp only [hp] at h
      split_ifs at h <;>
        first
          | simp at h
          | (split at h <;> simp_all)

/-- C5 witness: an input matching nothing in the schema yields Nomatch and
leaves the store untouched. -/
theorem execute_error_leaves_store_witness :
    ∃ st : ConfigStore,
      execute 4 modeW ConfigStore.new "zzz" = some (.Nomatch, "", st) ∧
      st = ConfigStore.new :=
  have hE : execute 4 modeW ConfigStore.new "zzz" =
      some (.Nomatch, "", ConfigStore.new) := by rfl
  ⟨ConfigStore.new, hE,
    execute_error_leaves_store 4 modeW ConfigStore.new "zzz" .Nomatch ""
      ConfigStore.new hE (Or.inl rfl)⟩

/-- `toNat` determines the MatchType (helper). -/
theorem MatchType.toNat_inj {a b : MatchType} (h : a.toNat = b.toNat) : a = b := by
  cases a <;> cases b <;> simp_all [MatchType.toNat]

/-- `countBest` over a cons (helper). -/
theorem countBest_cons (e : Entry) (mt : MatchType) (p : Nat) (c : Completion)
    (l : List Cand) (ty : MatchType) :
    countBest ((e, (mt, p), c) :: l) ty =
      countBest l ty + (if mt = ty ∧ ty ≠ MatchType.None then 1 else 0) := by
  unfold countBest
  by_cases h : ty = MatchType.None
  · simp [h]
  · rw [List.filter_cons]
    by_cases hty : mt = ty
    · simp [hty, h]
    · simp [hty, h]

/-- The fold of `Match::process` over a candidate list computes the best
match type and counts exactly the candidates achieving it (helper). -/
theorem processAll_spec : ∀ (l : List Cand) (m : Match),
    (processAll m l).matched_type.toNat = max m.matched_type.toNat (bestTypeN l) ∧
    (processAll m l).count =
      (if (processAll m l).matched_type = m.matched_type then m.count else 0) +
        countBest l (processAll m l).matched_type
  | [], m => by
    constructor
    · simp [processAll, bestTypeN]
    · simp [processAll, countBest]
  | t :: l, m => by
    obtain ⟨e, ⟨mt, p⟩, c⟩ := t
    have hstep : processAll m ((e, (mt, p), c) :: l) =
        processAll (m.process e (mt, p) c) l := rfl
    have hbest : bestTypeN ((e, (mt, p), c) :: l) = max mt.toNat (bestTypeN l) := rfl
    rw [hstep, hbest, countBest_cons]
    rcases processAll_spec l (m.process e (mt, p) c) with ⟨ih1, ih2⟩
    by_cases h0 : mt = MatchType.None
    · have hm : m.process e (mt, p) c = m := by simp [Match.process, h0]
      rw [hm] at ih1 ih2 ⊢
      subst h0
      refine ⟨?_, ?_⟩
      · rw [ih1]
        simp [MatchType.toNat]
      · rw [ih2]
        have hni : ¬ (MatchType.None = (processAll m l).matched_type ∧
            (processAll m l).matched_type ≠ MatchType.None) := by
          rintro ⟨ha, hb⟩; exact hb ha.symm
        rw [if_neg hni]
        omega
    · by_cases h1 : m.matched_type.toNat < mt.toNat
      · have hm'mt : (m.process e (mt, p) c).matched_type = mt := by
          simp [Match.process, h0, h1]
        have hm'ct : (m.process e (mt, p) c).count = 1 := by
          simp [Match.process, h0, h1]
        rw [hm'mt] at ih1
        rw [hm'mt, hm'ct] at ih2
        have hAge : mt.toNat ≤ (processAll (m.process e (mt, p) c) l).matched_type.toNat := by
          rw [ih1]; exact le_max_left _ _
        have hne : (processAll (m.process e (mt, p) c) l).matched_type ≠ m.matched_type := by
          intro hEq; rw [hEq] at hAge; omega
        refine ⟨?_, ?_⟩
        · rw [ih1, max_eq_right (le_trans (Nat.le_of_lt h1) (le_max_left _ _))]
        · rw [if_neg hne, ih2]
          by_cases hA : (processAll (m.process e (mt, p) c) l).matched_type = mt
          · simp only [hA]
            simp [h0]
            omega
          · have hx : ¬ (mt = (processAll (m.process e (mt, p) c) l).matched_type ∧
                (processAll (m.process e (mt, p) c) l).matched_type ≠ MatchType.None) := by
              rintro ⟨ha, _⟩; exact hA ha.symm
            simp only [if_neg hA, if_neg hx]
            omega
      · by_cases h2 : mt = m.matched_type
        · subst h2
          have hm'mt : (m.process e (m.matched_type, p) c).matched_type =
              m.matched_type := by
            simp [Match.process, h0]
          have hm'ct : (m.process e (m.matched_type, p) c).count = m.count + 1 := by
            simp [Match.process, h0]
          rw [hm'mt] at ih1
          rw [hm'mt, hm'ct] at ih2
          refine ⟨?_, ?_⟩
          · rw [ih1, ← max_assoc, max_self]
          · rw [ih2]
            by_cases hA : (processAll (m.process e (m.matched_type, p) c) l).matched_type =
                m.matched_type
            · simp only [hA]
              simp [h0]
              omega
            · have hx : ¬ (m.matched_type =
                  (processAll (m.process e (m.matched_type, p) c) l).matched_type ∧
                  (processAll (m.process e (m.matched_type, p) c) l).matched_type ≠
                    MatchType.None) := by
                rintro ⟨ha, _⟩; exact hA ha.symm
              simp only [if_neg hA, if_neg hx]
              omega
        · have hlt : mt.toNat < m.matched_type.toNat := by
            have hq : mt.toNat ≠ m.matched_type.toNat :=
              fun hq => h2 (MatchType.toNat_inj hq)
            omega
          have hm'mt : (m.process e (mt, p) c).matched_type = m.matched_type := by
            simp [Match.process, h0, h1, h2]
          have hm'ct : (m.process e (mt, p) c).count = m.count := by
            simp [Match.process, h0, h1, h2]
          rw [hm'mt] at ih1
          rw [hm'mt, hm'ct] at ih2
          refine ⟨?_, ?_⟩
          · rw [ih1, ← max_assoc, max_eq_left (Nat.le_of_lt hlt)]
          · have hAge : m.matched_type.toNat ≤
                (processAll (m.process e (mt, p) c) l).matched_type.toNat := by
              rw [ih1]; exact le_max_left _ _
            have hne : mt ≠ (processAll (m.process e (mt, p) c) l).matched_type := by
              intro hEq; rw [← hEq] at hAge; omega
            have hx : ¬ (mt = (processAll (m.process e (mt, p) c) l).matched_type ∧
                (processAll (m.process e (mt, p) c) l).matched_type ≠
                  MatchType.None) := by
              rintro ⟨ha, _⟩; exact hne ha
            rw [ih2, if_neg hx]
            omega

/-- Membership after inserting into a sorted-by-name list (helper). -/
theorem comps_insert_mem {x c : Completion} : ∀ {l : List Completion},
    x ∈ comps_insert c l → x = c ∨ x ∈ l
  | [], h => by simpa [comps_insert] using h
  | d :: ds, h => by
    rw [comps_insert] at h
    split_ifs at h with hle
    · rcases List.mem_cons.mp h with rfl | h
      · exact Or.inl rfl
      · exact Or.inr h
    · rcases List.mem_cons.mp h with rfl | h
      · exact Or.inr (List.mem_cons_self _ _)
      · rcases comps_insert_mem h with rfl | h
        · exact Or.inl rfl
        · exact Or.inr (List.mem_cons_of_mem _ h)

/-- `chars_le` is total (helper). -/
theorem chars_le_total : ∀ as bs : List Char,
    chars_le as bs = true ∨ chars_le bs as = true
  | [], bs => Or.inl rfl
  | a :: as, [] => Or.inr rfl
  | a :: as, b :: bs => by
    rw [chars_le, chars_le]
    rcases lt_trichotomy a b with h | h | h
    · simp [h]
    · subst h
      simpa [lt_irrefl] using chars_le_total as bs
    · simp [h, not_lt_of_gt h]

/-- `chars_le` is transitive (helper). -/
theorem chars_le_trans : ∀ as bs cs : List Char,
    chars_le as bs = true → chars_le bs cs = true → chars_le as cs = true
  | [], _, _, _, _ => rfl
  | a :: as, [], cs, h1, _ => by simp [chars_le] at h1
  | a :: as, b :: bs, [], _, h2 => by simp [chars_le] at h2
  | a :: as, b :: bs, c :: cs, h1, h2 => by
    rw [chars_le] at h1 h2 ⊢
    rcases lt_trichotomy a b with hab | hab | hab
    · rcases lt_trichotomy b c with hbc | hbc | hbc
      · simp [lt_trans hab hbc]
      · subst hbc; simp [hab]
      · rw [if_neg (not_lt_of_gt hbc), if_pos hbc] at h2; cases h2
    · subst hab
      rcases lt_trichotomy a c with hbc | hbc | hbc
      · simp [hbc]
      · subst hbc
        rw [if_neg (lt_irrefl a), if_neg (lt_irrefl a)] at h1 h2 ⊢
        exact chars_le_trans as bs cs h1 h2
      · rw [if_neg (not_lt_of_gt hbc), if_pos hbc] at h2; cases h2
    · rw [if_neg (not_lt_of_gt hab), if_pos hab] at h1; cases h1

/-- Inserting into a name-sorted list keeps it sorted (helper). -/
theorem comps_insert_pairwise (c : Completion) : ∀ (l : List Completion),
    l.Pairwise compLe → (comps_insert c l).Pairwise compLe
  | [], _ => by simp [comps_insert]
  | d :: ds, h => by
    rcases List.pairwise_cons.mp h with ⟨hd, hds⟩
    rw [comps_insert]
    split_ifs with hle
    · refine List.pairwise_cons.mpr ⟨?_, h⟩
      intro x hx
      rcases List.mem_cons.mp hx with rfl | hx
      · exact hle
      · exact chars_le_trans _ _ _ hle (hd x hx)
    · refine List.pairwise_cons.mpr ⟨?_, comps_insert_pairwise c ds hds⟩
      intro x hx
      rcases comps_insert_mem hx with rfl | hx
      · exact (chars_le_total _ _).resolve_left hle
      · exact hd x hx

/-- The Ambiguous sort really sorts by name (helper). -/
theorem sort_by_name_pairwise : ∀ l : List Completion,
    (sort_by_name l).Pairwise compLe
  | [] => by simp [sort_by_name]
  | c :: cs => by
    have h : sort_by_name (c :: cs) = comps_insert c (sort_by_name cs) := rfl
    rw [h]
    exact comps_insert_pairwise c _ (sort_by_name_pairwise cs)

/-- `entry_match_dir` is the `process` fold over the child keyword
candidates (helper). -/
theorem entry_match_dir_eq_processAll (entry : Entry) (input : List Char) (m : Match) :
    entry_match_dir entry input m =
      processAll m (entry.dir.map fun e =>
        (e, match_keyword input e.name.toList, cname e.name)) := by
  simp [entry_match_dir, processAll, List.foldl_map, Match.match_keyword]

/-- C7: match ranking and its use in a parse step.  The derived ordering
is None < Incomplete < Partial < Exact; a fold of `Match::process` ends
with the best type and a count of exactly the candidates achieving it
(the directory match being such a fold); and a parse step whose schema
match has count 0 returns Nomatch, count above 1 returns Ambiguous with
the completions stably sorted by name, and count exactly 1 proceeds with
the step tail on the matched entry. -/
theorem match_ranking (fuel : Nat) (input : List Char) (entry : Entry)
    (config : Option Config) (s : State) (l : List Cand) (m : Match)
    (lc : List Completion) (hset : s.set = false) (hdel : s.delete = false) :
    (MatchType.toNat .None < MatchType.toNat .Incomplete ∧
     MatchType.toNat .Incomplete < MatchType.toNat .Partial ∧
     MatchType.toNat .Partial < MatchType.toNat .Exact) ∧
    ((processAll m l).matched_type.toNat = max m.matched_type.toNat (bestTypeN l) ∧
     (processAll m l).count =
       (if (processAll m l).matched_type = m.matched_type then m.count else 0) +
         countBest l (processAll m l).matched_type) ∧
    (entry_match_dir entry input m =
      processAll m (entry.dir.map fun e =>
        (e, match_keyword input e.name.toList, cname e.name))) ∧
    (sort_by_name lc).Pairwise compLe ∧
    ((entry_match s entry input).count = 0 →
      parseF (fuel + 1) input entry config s =
        some (.Nomatch, (entry_match s entry input).comps, s)) ∧
    (1 < (entry_match s entry input).count →
      parseF (fuel + 1) input entry config s =
        some (.Ambiguous, sort_by_name (entry_match s entry input).comps, s)) ∧
    ((entry_match s entry input).count = 1 →
      parseF (fuel + 1) input entry config s =
        parseGo (fun i e c st => parseF fuel i e c st) input entry config s
          Match.new (entry_match s entry input)) := by
  refine ⟨⟨by decide, by decide, by decide⟩, processAll_spec l m,
    entry_match_dir_eq_processAll entry input m, sort_by_name_pairwise lc,
    ?_, ?_, ?_⟩
  · intro hc
    simp [parseF, hset, hdel, hc]
  · intro hc
    have hc0 : ¬ (entry_match s entry input).count = 0 := by omega
    simp [parseF, hset, hdel, hc, hc0]
  · intro hc
    simp [parseF, hset, hdel, hc]

/-- C7 witness: the token `ba` matches both `bar1` and `bar2` partially,
so the parse step reports Ambiguous with the name-sorted completions. -/
theorem match_ranking_witness :
    parseF 3 "ba".toList ambigEntry none State.new =
      some (.Ambiguous, [cname "bar1", cname "bar2"], State.new) := by
  have h := (match_ranking 2 "ba".toList ambigEntry none State.new [] Match.new []
      rfl rfl).2.2.2.2.2.1
  rw [h (by decide)]
  rfl

/-- A zero-width pattern match loops `parse` forever: from LeafListMatched
with a string pattern that matches the input (which is nonempty and does
not start with whitespace), `match_regexp` reports position 0, so every
recursive call receives the identical remainder and the fuel always runs
out (helper). -/
theorem parseF_zero_width_loop (pat nm : String) (rng : Option (List (Int × Int)))
    (en : List String) (dir : List Entry) (key : List String)
    (pres dflag llflag elflag : Bool) (config : Option Config)
    (hnm1 : nm ≠ "set") (hnm2 : nm ≠ "delete")
    (ch : Char) (t : List Char) (hws : ws_char ch = false)
    (hmatch : regexIsMatch pat (ch :: t) = true) :
    ∀ (fuel idx : Nat) (shw : Bool) (ps : List CommandPath),
      parseF fuel (ch :: t)
        (.mk nm none (some ⟨.String, some pat, rng, en⟩) dir key pres dflag llflag elflag)
        config
        { ymatch := .LeafListMatched, index := idx, set := false, delete := false,
          show' := shw, paths := ps, links := [] } = none
  | 0, _, _, _ => rfl
  | fuel + 1, idx, shw, ps => by
    simp only [parseF, entry_match, entry_match_type, Entry.type_node, Entry.typedef,
      Entry.name, Entry.is_empty_leaf, Entry.presence, ytype_from_typedef,
      YangType.intBounds, match_string, match_regexp, hmatch, if_true,
      Match.process, Match.new, Match.match_keyword, List.foldl_nil, ite_self,
      parseGo, parseTrans, parseTail, ymatch_complete, comps_add_cr, comps_append,
      skip_ws, List.drop_zero, List.take_zero, List.takeWhile, hws, hnm1, hnm2]
    simp
    exact parseF_zero_width_loop pat nm rng en dir key pres dflag llflag elflag
      config hnm1 hnm2 ch t hws hmatch fuel idx shw _

/-- C10 amended: `parse` does not terminate for every input, schema entry,
config subtree and state: a type match can succeed while consuming zero
characters (`match_regexp` reports position 0), and then the recursive
call receives the identical remainder.  Concretely, from a LeafListMatched
state over an entry whose string type carries a pattern matching the
input, `parse` diverges — the embedding returns `none` for every fuel. -/
theorem parse_termination_fails (pat nm : String) (rng : Option (List (Int × Int)))
    (en : List String) (dir : List Entry) (key : List String)
    (pres dflag llflag elflag : Bool) (config : Option Config)
    (hnm1 : nm ≠ "set") (hnm2 : nm ≠ "delete")
    (ch : Char) (t : List Char) (hws : ws_char ch = false)
    (hmatch : regexIsMatch pat (ch :: t) = true)
    (fuel idx : Nat) (shw : Bool) (ps : List CommandPath) :
    parseF fuel (ch :: t)
      (.mk nm none (some ⟨.String, some pat, rng, en⟩) dir key pres dflag llflag elflag)
      config
      { ymatch := .LeafListMatched, index := idx, set := false, delete := false,
        show' := shw, paths := ps, links := [] } = none :=
  parseF_zero_width_loop pat nm rng en dir key pres dflag llflag elflag config
    hnm1 hnm2 ch t hws hmatch fuel idx shw ps

/-- C10 counterexample: on the concrete leaf-list entry with pattern `a`
and input `ab`, no amount of fuel makes `parse` return: the recursion
never reaches a base case. -/
theorem parse_termination_counterexample :
    ¬ ∃ (fuel : Nat) (r : ParseResult),
        parseF fuel "ab".toList llEntry none sLL = some r := by
  rintro ⟨fuel, r, h⟩
  have hz : parseF fuel "ab".toList llEntry none sLL = none :=
    parseF_zero_width_loop "a" "names" none [] [] [] false false true false none
      (by decide) (by decide) 'a' ['b'] (by decide) (by decide) fuel 0 false []
  rw [hz] at h
  cases h

/-- C10 witness: the amended theorem evaluated at the concrete diverging
input with fuel 100. -/
theorem parse_termination_fails_witness :
    parseF 100 "ab".toList llEntry none sLL = none :=
  parse_termination_fails "a" "names" none [] [] [] false false true false none
    (by decide) (by decide) 'a' ['b'] (by decide) (by decide) 100 0 false []

end Zebra
